import Mathlib

/-!
Verification of the natural-language specification of mosaic_traj
(ROTRAJ trajectory reader) against a shallow embedding of
src/mosaic_traj/read_traj.py.

Modelling conventions:
* A text file is a list of its physical lines, without the trailing
  newline characters (the Python code strips them before matching, and
  the digit/token extraction is unaffected by them).
* Python exceptions are modelled by the error type PyErr; a Python
  function that can raise returns Except PyErr.
* Python strings are Lean Strings; all scanning is done on the
  underlying character lists so that every definition evaluates inside
  the kernel.
* pandas read_csv is modelled at the line level: after the skip offset
  and the consumed column-header row, every remaining line is one
  whitespace-delimited record; TextFileReader.get_chunk n yields up to
  n lines and raises StopIteration only when no line remains.
* Timestamps are minutes: a calendar day is converted to a day number
  (civil-calendar algorithm) and multiplied by 1440; pd.date_range
  with periods=n and a frequency of f minutes starting at a date is
  the list of day*1440 + k*f for k < n.
-/

set_option maxRecDepth 4000

/-! ## Character-list utilities -/

/-- Lower-casing of a Python string (str.lower on ASCII header text). -/
def lowerStr (s : String) : String :=
  ⟨s.data.map Char.toLower⟩

/-- Does the pattern occur at the start of the character list? -/
def startsList : List Char → List Char → Bool
  | [], _ => true
  | _ :: _, [] => false
  | p :: ps, c :: cs => p == c && startsList ps cs

/-- Python substring containment (pat in s) on character lists. -/
def occursIn (pat : List Char) : List Char → Bool
  | [] => pat.isEmpty
  | c :: cs => startsList pat (c :: cs) || occursIn pat cs

/-- Python substring containment on strings. -/
def hasSub (pat s : String) : Bool :=
  occursIn pat.data s.data

/-- Numeric value of a list of decimal digit characters. -/
def natOfDigits (cs : List Char) : Nat :=
  cs.foldl (fun a c => 10 * a + (c.toNat - 48)) 0

/-- Worker for digitRuns: acc holds the digits of the current run in
reverse. -/
def digitRunsGo : List Char → List Char → List Nat
  | acc, [] => if acc.isEmpty then [] else [ natOfDigits acc.reverse ]
  | acc, c :: cs =>
    if c.isDigit then
      digitRunsGo (c :: acc) cs
    else if acc.isEmpty then
      digitRunsGo [] cs
    else
      natOfDigits acc.reverse :: digitRunsGo [] cs

/-- Maximal runs of decimal digits in a line, as numbers: re.findall
of one-or-more-digits applied to the line. -/
def digitRuns (cs : List Char) : List Nat :=
  digitRunsGo [] cs

/-- First window of ten consecutive decimal digits in a line:
re.search of ten digits. -/
def scan10 : List Char → Option String
  | [] => none
  | c :: cs =>
    if ((c :: cs).take 10).length == 10 && ((c :: cs).take 10).all Char.isDigit then
      some ⟨(c :: cs).take 10⟩
    else
      scan10 cs

/-- Worker for splitWs: acc holds the characters of the current token
in reverse. -/
def splitWsGo : List Char → List Char → List String
  | acc, [] => if acc.isEmpty then [] else [ ⟨acc.reverse⟩ ]
  | acc, c :: cs =>
    if c.isWhitespace then
      if acc.isEmpty then splitWsGo [] cs else ⟨acc.reverse⟩ :: splitWsGo [] cs
    else
      splitWsGo (c :: acc) cs

/-- Whitespace-delimited tokens of a record line (pandas
delim_whitespace tokenisation). -/
def splitWs (cs : List Char) : List String :=
  splitWsGo [] cs

/-- Character list split on a separator character (str.split with a
one-character separator). -/
def splitOnCharGo (sep : Char) : List Char → List Char → List (List Char)
  | acc, [] => [ acc.reverse ]
  | acc, c :: cs =>
    if c == sep then acc.reverse :: splitOnCharGo sep [] cs
    else splitOnCharGo sep (c :: acc) cs

/-- Character list split on a separator character. -/
def splitOnChar (sep : Char) (cs : List Char) : List (List Char) :=
  splitOnCharGo sep [] cs

/-! ## Python-side primitives of read_traj.py -/

/-- The Python exceptions that the reader can raise. -/
inductive PyErr where
  | stopIteration
  | indexError
  | typeError
  | valueError
  | keyError
  deriving DecidableEq, Repr

/-- Result of get_numeric: a single int when exactly one digit run is
found, otherwise the list of ints (the Python function returns m[0]
for a one-element list and the list itself when it is longer). -/
inductive NumVal where
  | one (n : Nat)
  | many (ns : List Nat)
  deriving DecidableEq, Repr

/-- get_date: first ten-digit window of the line, None when absent. -/
def get_date (l : String) : Option String :=
  scan10 l.data

/-- get_numeric: all digit runs of the line; raises IndexError (m[0]
on an empty list) when the line holds no digits. -/
def get_numeric (l : String) : Except PyErr NumVal :=
  match digitRuns l.data with
  | [] => .error .indexError
  | [x] => .ok (.one x)
  | xs => .ok (.many xs)

/-- get_boolean: re.split on a colon plus following whitespace, then
compare the last segment with the letter t.  Equivalently: the text
after the last colon with its leading whitespace dropped (the whole
line when there is no colon) must be exactly the letter t. -/
def get_boolean (l : String) : Bool :=
  let cs := l.data
  if cs.contains ':' then
    ((cs.reverse.takeWhile (fun x => x != ':')).reverse.dropWhile Char.isWhitespace) == [ 't' ]
  else
    cs == [ 't' ]

/-- The metadata dictionary built by process_metadata, plus the
attribute-names entry that read_traj adds.  A field is none when its
key was never stored; for the two date fields a stored Python None
(get_date found no ten-digit window) is collapsed into none as well —
both cases make the later strptime call raise. -/
structure Metadata where
  trajectory_base_time : Option String := none
  data_base_time : Option String := none
  data_interval_hours : Option Nat := none
  data_interval_timesteps : Option Nat := none
  total_trajectories : Option NumVal := none
  num_attributes : Option NumVal := none
  attribute_types : Option NumVal := none
  num_clusters : Option NumVal := none
  cluster_pointers : Option NumVal := none
  threeD : Option Bool := none
  forecast : Option Bool := none
  forward : Option Bool := none
  attribute_names : Option (List String) := none
  deriving DecidableEq, Repr

/-- Which branch of the elif chain in process_metadata a (lowered)
line falls into; the order of the tests is the order of the chain. -/
inductive LineKind where
  | marker | tbt | dbt | di | tot | na | at2 | nc | cp | b3d | bfd | bfw | other
  deriving DecidableEq, Repr

/-- The elif chain of process_metadata, as a classification of the
lowered line. -/
def classify (l : String) : LineKind :=
  if hasSub "trajectory number" l then .marker
  else if hasSub "trajectory base time" l then .tbt
  else if hasSub "data base time" l then .dbt
  else if hasSub "data interval" l then .di
  else if hasSub "total number of trajectories" l then .tot
  else if hasSub "number of attributes" l then .na
  else if hasSub "attribute types" l then .at2
  else if hasSub "number of clusters" l then .nc
  else if hasSub "cluster pointers" l then .cp
  else if hasSub "3d trajectory" l then .b3d
  else if hasSub "forecast data" l then .bfd
  else if hasSub "forward trajectory" l then .bfw
  else .other

/-- The scan loop of process_metadata.  i is the enumerate counter
(it numbers only the lines the for loop yields), count the running
extra-line count; the attribute-types and cluster-pointers branches
consume the following line with next(f), which the enumeration never
sees, and add one to count; finding the body marker returns
count + i; end of file returns the accumulated count. -/
def pmGo : List String → Nat → Nat → Metadata → Except PyErr (Metadata × Nat)
  | [], _, count, md => .ok (md, count)
  | line :: rest, i, count, md =>
    match classify (lowerStr line) with
    | .marker => .ok (md, count + i)
    | .tbt =>
      pmGo rest (i + 1) count { md with trajectory_base_time := get_date (lowerStr line) }
    | .dbt =>
      pmGo rest (i + 1) count { md with data_base_time := get_date (lowerStr line) }
    | .di =>
      match get_numeric (lowerStr line) with
      | .error e => .error e
      | .ok (.one _) => .error .typeError
      | .ok (.many [a, b]) =>
        pmGo rest (i + 1) count
          { md with data_interval_hours := some a, data_interval_timesteps := some b }
      | .ok (.many _) => .error .valueError
    | .tot =>
      match get_numeric (lowerStr line) with
      | .error e => .error e
      | .ok v => pmGo rest (i + 1) count { md with total_trajectories := some v }
    | .na =>
      match get_numeric (lowerStr line) with
      | .error e => .error e
      | .ok v => pmGo rest (i + 1) count { md with num_attributes := some v }
    | .at2 =>
      match rest with
      | [] => .error .stopIteration
      | nxt :: r2 =>
        match get_numeric nxt with
        | .error e => .error e
        | .ok v => pmGo r2 (i + 1) (count + 1) { md with attribute_types := some v }
    | .nc =>
      match get_numeric (lowerStr line) with
      | .error e => .error e
      | .ok v => pmGo rest (i + 1) count { md with num_clusters := some v }
    | .cp =>
      match rest with
      | [] => .error .stopIteration
      | nxt :: r2 =>
        match get_numeric nxt with
        | .error e => .error e
        | .ok v => pmGo r2 (i + 1) (count + 1) { md with cluster_pointers := some v }
    | .b3d =>
      pmGo rest (i + 1) count { md with threeD := some (get_boolean (lowerStr line)) }
    | .bfd =>
      pmGo rest (i + 1) count { md with forecast := some (get_boolean (lowerStr line)) }
    | .bfw =>
      pmGo rest (i + 1) count { md with forward := some (get_boolean (lowerStr line)) }
    | .other => pmGo rest (i + 1) count md

/-- process_metadata: scan the file lines, build the metadata
dictionary and the header line count. -/
def process_metadata (lines : List String) : Except PyErr (Metadata × Nat) :=
  pmGo lines 0 0 {}

/-- The header line count alone, when process_metadata succeeds. -/
def pmCount (lines : List String) : Option Nat :=
  match process_metadata lines with
  | .ok r => some r.2
  | .error _ => none

/-! ## Specification-side view of the header scan

scanSpec replays only the control flow of the scan loop of
process_metadata (the same elif chain via classify), tracking the
absolute physical line position p of the current line and the number
k of value-on-next-line lines consumed so far.  It is the yardstick
against which the count bookkeeping of process_metadata is measured. -/

/-- Outcome of the header scan: stopped at the body marker whose
physical line index is p, reached end of file having consumed k
value lines, or died calling next(f) at end of file. -/
inductive ScanRes where
  | stopped (p : Nat)
  | ended (k : Nat)
  | died
  deriving DecidableEq, Repr

/-- Control-flow replay of the scan loop of process_metadata. -/
def scanSpec : List String → Nat → Nat → ScanRes
  | [], _, k => .ended k
  | line :: rest, p, k =>
    match classify (lowerStr line) with
    | .marker => .stopped p
    | .at2 =>
      match rest with
      | [] => .died
      | _ :: r2 => scanSpec r2 (p + 2) (k + 1)
    | .cp =>
      match rest with
      | [] => .died
      | _ :: r2 => scanSpec r2 (p + 2) (k + 1)
    | _ => scanSpec rest (p + 1) k

/-- The line with physical index j contains the body marker. -/
def markerAt (lines : List String) (j : Nat) : Bool :=
  match lines.drop j with
  | [] => false
  | l :: _ => hasSub "trajectory number" (lowerStr l)

/-! ## read_traj -/

/-- The fixed attribute code-to-name table ATTR. -/
def ATTR : Nat → Option String := fun k =>
  if k = 1 then some "temperature (K)"
  else if k = 3 then some "potential vorticity (PVU)"
  else if k = 4 then some "specific humidity (kg/kg)"
  else if k = 10 then some "height (m)"
  else if k = 159 then some "boundary layer height (m)"
  else none

/-- fn[-2] of the filename split on underscores: the frequency token
of the rtraj_mosaic_1min_YYYYmmdd00 naming convention.  Python raises
IndexError when the split yields fewer than two parts. -/
def freqOfName (fname : String) : Option String :=
  let fn := (splitOnChar '_' fname.data).map fun cs => (⟨cs⟩ : String)
  if fn.length < 2 then none else fn[fn.length - 2]?

/-- Number of days in a month of the proleptic Gregorian calendar. -/
def daysInMonth (y m : Nat) : Nat :=
  if m = 2 then
    if (y % 4 = 0 && y % 100 != 0) || y % 400 = 0 then 29 else 28
  else if m = 4 || m = 6 || m = 9 || m = 11 then 30
  else 31

/-- datetime.strptime with format %Y%m%d%H on a ten-digit stamp:
year, month, day and hour fields with datetime's range validation. -/
def strptime10 (s : String) : Option (Nat × Nat × Nat × Nat) :=
  let cs := s.data
  if cs.length = 10 && cs.all Char.isDigit then
    let y := natOfDigits (cs.take 4)
    let m := natOfDigits ((cs.drop 4).take 2)
    let d := natOfDigits ((cs.drop 6).take 2)
    let h := natOfDigits (cs.drop 8)
    if 1 ≤ y && y ≤ 9999 && 1 ≤ m && m ≤ 12 && 1 ≤ d && d ≤ daysInMonth y m && h ≤ 23 then
      some (y, m, d, h)
    else none
  else none

/-- Day number of a calendar date, counted from 0000-03-01 of the
proleptic Gregorian calendar (the standard civil-calendar formula);
valid for years from 1 on, which datetime guarantees. -/
def civilToDays : Nat × Nat × Nat → Nat
  | (y, m, d) =>
    let y' := if m ≤ 2 then y - 1 else y
    let era := y' / 400
    let yoe := y' % 400
    let mp := (m + 9) % 12
    let doy := (153 * mp + 2) / 5 + d - 1
    let doe := yoe * 365 + yoe / 4 - yoe / 100 + doy
    era * 146097 + doe

/-- Inverse of civilToDays. -/
def civilFromDays (z : Nat) : Nat × Nat × Nat :=
  let era := z / 146097
  let doe := z % 146097
  let yoe := (doe - doe / 1460 + doe / 36524 - doe / 146096) / 365
  let y := yoe + era * 400
  let doy := doe - (365 * yoe + yoe / 4 - yoe / 100)
  let mp := (5 * doy + 2) / 153
  let d := doy - (153 * mp + 2) / 5 + 1
  let m := if mp < 10 then mp + 3 else mp - 9
  (if m ≤ 2 then y + 1 else y, m, d)

/-- A pandas frequency token such as 1min, as a number of minutes:
an optional leading count (default 1) followed by a unit.  Unknown
units make pd.date_range raise ValueError. -/
def parseFreq (tok : String) : Option Nat :=
  let cs := tok.data
  let ds := cs.takeWhile Char.isDigit
  let unit : List Char := cs.dropWhile Char.isDigit
  let n := if ds.isEmpty then 1 else natOfDigits ds
  if unit = [ 'm', 'i', 'n' ] || unit = [ 'T' ] then some n
  else if unit = [ 'h' ] || unit = [ 'H' ] then some (60 * n)
  else if unit = [ 'd' ] || unit = [ 'D' ] then some (1440 * n)
  else none

/-- Elementwise lookup that stops at the first failure: the list
comprehension over ATTR lookups, whose first missing key raises. -/
def mapOpt (f : α → Option β) : List α → Option (List β)
  | [] => some []
  | x :: xs =>
    match f x with
    | none => none
    | some y =>
      match mapOpt f xs with
      | none => none
      | some ys => some (y :: ys)

/-- The fixed per-trajectory step-interval constant NTS of read_traj. -/
def nts : Nat := 88

/-- One parsed record line, indexed by its first whitespace token (the
STEP column is the index column): (step, remaining fields). -/
def parseRecord (line : String) : String × List String :=
  match splitWs line.data with
  | [] => ("", [])
  | t :: ts => (t, ts)

/-- The chunk-reading while loop of read_traj.  Iteration i does
get_chunk (nts+1) — StopIteration when no line remains, leaving this
and all later slots None — stores the chunk, then get_chunk 2 for the
two separator lines — StopIteration when no line remains breaks after
the chunk was stored. -/
def readBlocksGo : List String → Nat → List (Option (List String))
  | _, 0 => []
  | recs, n + 1 =>
    if recs.isEmpty then
      none :: List.replicate n none
    else
      let chunk := recs.take (nts + 1)
      let rest := recs.drop (nts + 1)
      if rest.isEmpty then
        some chunk :: List.replicate n none
      else
        some chunk :: readBlocksGo (rest.drop 2) n

/-- A run table: the concatenated per-trajectory tables, keyed by the
release timestamp in minutes, each row keyed by its STEP token. -/
abbrev RunTable := List (Nat × List (String × List String))

/-- pd.concat of the chunk list with the date_range keys: pandas zips
the keys with the objects, silently dropping the None entries, and
raises ValueError when no object remains. -/
def combineChunks (keys : List Nat) (chunks : List (Option (List String))) : RunTable :=
  (keys.zip chunks).filterMap fun kc => kc.2.map fun ls => (kc.1, ls.map parseRecord)

/-- read_traj: parse the header, derive the frequency token from the
filename, read nts+1-line chunks separated by two discarded lines,
and concatenate them keyed by base date plus chunk index times the
frequency.  The column-name list built from the attribute names only
matters through its error effects (an unmapped code raises KeyError,
a scalar attribute-types value raises TypeError), which are modelled;
the per-column typing of pandas is not. -/
def read_traj (fname : String) (lines : List String) : Except PyErr (RunTable × Metadata) :=
  match process_metadata lines with
  | .error e => .error e
  | .ok (md, endc) =>
    match freqOfName fname with
    | none => .error .indexError
    | some freq =>
      match md.trajectory_base_time with
      | none => .error .typeError
      | some bt =>
        match strptime10 bt with
        | none => .error .valueError
        | some (y, m, d, _h) =>
          match md.total_trajectories with
          | none => .error .keyError
          | some nv =>
            match md.attribute_types with
            | none => .error .keyError
            | some (.one _) => .error .typeError
            | some (.many codes) =>
              match mapOpt ATTR codes with
              | none => .error .keyError
              | some names =>
                match nv with
                | .many _ => .error .typeError
                | .one npart =>
                  let md' := { md with attribute_names := some names }
                  let recs := lines.drop (endc + 1 + 1)
                  let chunks := readBlocksGo recs npart
                  match parseFreq freq with
                  | none => .error .valueError
                  | some fmin =>
                    let keys := (List.range npart).map
                      fun j => civilToDays (y, m, d) * 1440 + j * fmin
                    let tbl := combineChunks keys chunks
                    if tbl.isEmpty then .error .valueError else .ok (tbl, md')

/-- Reading the same file twice in a row, as the idempotence property
phrases it. -/
def readTwice (fname : String) (lines : List String) :
    Except PyErr (RunTable × Metadata) × Except PyErr (RunTable × Metadata) :=
  (read_traj fname lines, read_traj fname lines)

/-! ## read_data -/

/-- datetime.fromisoformat on a zero-padded YYYY-MM-DD date string,
with datetime's range validation; None models the ValueError raised
on a malformed string. -/
def fromIso (s : String) : Option (Nat × Nat × Nat) :=
  match splitOnChar '-' s.data with
  | [ ys, ms, ds ] =>
    if ys.length = 4 && ms.length = 2 && ds.length = 2 &&
        ys.all Char.isDigit && ms.all Char.isDigit && ds.all Char.isDigit then
      let y := natOfDigits ys
      let m := natOfDigits ms
      let d := natOfDigits ds
      if 1 ≤ y && 1 ≤ m && m ≤ 12 && 1 ≤ d && d ≤ daysInMonth y m then
        some (y, m, d)
      else none
    else none
  | _ => none

/-- daterange: the days from start_date to end_date inclusive (just
start_date when end_date is None, empty when end_date lies before
start_date, matching range of a non-positive count). -/
def daterange (sd : Nat × Nat × Nat) (ed : Option (Nat × Nat × Nat)) :
    List (Nat × Nat × Nat) :=
  let e := ed.getD sd
  if civilToDays e < civilToDays sd then []
  else (List.range (civilToDays e - civilToDays sd + 1)).map
    fun n => civilFromDays (civilToDays sd + n)

/-- Decimal digits of n, left-padded with zeros to width w (strftime
zero padding). -/
def padNum (w n : Nat) : List Char :=
  let s := (Nat.repr n).data
  List.replicate (w - s.length) '0' ++ s

/-- The glob pattern for one day, rtraj then anything then the
YYYYmmdd00 stamp of the day: a name matches when it starts with
rtraj, ends with the ten-character stamp, and is long enough for the
two parts not to overlap. -/
def matchesPattern (d : Nat × Nat × Nat) (name : String) : Bool :=
  let stamp := padNum 4 d.1 ++ padNum 2 d.2.1 ++ padNum 2 d.2.2 ++ [ '0', '0' ]
  startsList ("rtraj").data name.data &&
    startsList stamp.reverse name.data.reverse &&
    decide (15 ≤ name.data.length)

/-- A directory, as its listing: one (file name, file lines) entry
per file, in listing order (the order glob returns). -/
abbrev DirListing := List (String × List String)

/-- The run files of a directory matched by the per-day glob calls,
flattened in ascending day order (specification-side view of the file
discovery of read_data). -/
def matchingEntries (entries : DirListing) (sd : Nat × Nat × Nat)
    (ed : Option (Nat × Nat × Nat)) : DirListing :=
  ((daterange sd ed).map fun d => entries.filter fun e => matchesPattern d e.1).flatten

/-- The Python list comprehension over read_traj results: evaluated
left to right, the first exception aborts the whole comprehension. -/
def mapE (f : α → Except PyErr β) : List α → Except PyErr (List β)
  | [] => .ok []
  | x :: xs =>
    match f x with
    | .error e => .error e
    | .ok y =>
      match mapE f xs with
      | .error e => .error e
      | .ok ys => .ok (y :: ys)

/-- The part of read_data after argument validation: chdir into the
directory, glob one pattern per day, chdir back, then run read_traj
on every match (the file contents come with the listing entry; in the
source the path handed to read_traj is input_dir joined with the
matched name, whose basename is the matched name again).  Between
os.chdir(input_dir) and os.chdir(start_dir) only strftime, glob and
list flattening run, none of which can raise in this model (nor in
the source, barring operating-system faults), so the restore is
always reached. -/
def read_data_body (cwd input_dir : String) (entries : DirListing)
    (sd : Nat × Nat × Nat) (ed : Option (Nat × Nat × Nat)) :
    Except PyErr (List (RunTable × Metadata)) × String :=
  let start_dir := cwd
  let _cwdIn := input_dir
  let files := ((daterange sd ed).map fun d =>
    entries.filter fun e => matchesPattern d e.1).flatten
  let cwdOut := start_dir
  match mapE (fun e => read_traj e.1 e.2) files with
  | .ok ds => (.ok ds, cwdOut)
  | .error er => (.error er, cwdOut)

/-- read_data, with the process working directory threaded
explicitly: the function returns its result together with the working
directory the process is left in.  dirOk models os.path.isdir; the
directory is given as its listing.  Errors raised before the first
chdir (missing directory, malformed dates) leave cwd untouched, and
read_data_body restores it on every path. -/
def read_data (cwd : String) (dirOk : Bool) (input_dir : String) (entries : DirListing)
    (start_date : String) (end_date : Option String) :
    Except PyErr (List (RunTable × Metadata)) × String :=
  if !dirOk then (.error .valueError, cwd)
  else
    match fromIso start_date with
    | none => (.error .valueError, cwd)
    | some sd =>
      match end_date with
      | some es =>
        match fromIso es with
        | none => (.error .valueError, cwd)
        | some ed => read_data_body cwd input_dir entries sd (some ed)
      | none => read_data_body cwd input_dir entries sd none

/-- Length of the list inside a successful result. -/
def lengthOfOk (r : Except PyErr (List α)) : Option Nat :=
  match r with
  | .ok l => some l.length
  | .error _ => none

/-- Is the result a success? -/
def isOkB (r : Except PyErr α) : Bool :=
  match r with
  | .ok _ => true
  | .error _ => false

/-- The outer-index length of a successful read_traj result. -/
def tblLen (r : Except PyErr (RunTable × Metadata)) : Option Nat :=
  match r with
  | .ok x => some x.1.length
  | .error _ => none

/-- The declared trajectory count of a successful read_traj result. -/
def tblTotal (r : Except PyErr (RunTable × Metadata)) : Option (Option NumVal) :=
  match r with
  | .ok x => some x.2.total_trajectories
  | .error _ => none

/-- The per-block row counts of a successful read_traj result. -/
def blockLens (r : Except PyErr (RunTable × Metadata)) : Option (List Nat) :=
  match r with
  | .ok x => some (x.1.map fun e => e.2.length)
  | .error _ => none

/-- The step tokens of the first block of a successful read_traj
result. -/
def firstBlockSteps (r : Except PyErr (RunTable × Metadata)) : Option (List String) :=
  match r with
  | .ok x =>
    match x.1 with
    | [] => some []
    | e :: _ => some (e.2.map Prod.fst)
  | .error _ => none

/-- All (release timestamp, step) row keys of a run table, in order. -/
def rowKeys (tbl : RunTable) : List (Nat × String) :=
  (tbl.map fun e => e.2.map fun r => (e.1, r.1)).flatten

/-! ## Concrete run files used by witnesses and counterexamples -/

/-- A minimal well-formed header: base time, trajectory total, two
attributes whose codes stand on the value line, the body marker, and
the column-header row consumed by the reader. -/
def mkHdr (bt : String) (tot : Nat) (codesLine : String) : List String :=
  [ "TRAJECTORY BASE TIME IS " ++ bt,
    "TOTAL NUMBER OF TRAJECTORIES IS " ++ Nat.repr tot,
    "NUMBER OF ATTRIBUTES IS 2",
    "ATTRIBUTE TYPES =",
    codesLine,
    "TRAJECTORY NUMBER 1 COMPRISES 88 INTERVALS",
    "STEP HOURS LAT LON P T PV" ]

/-- The metadata dictionary that process_metadata builds from
mkHdr bt tot codesLine, when codesLine holds the digit runs codes. -/
def mdOfHdr (bt : String) (tot : Nat) (codes : List Nat) : Metadata :=
  { trajectory_base_time := some bt,
    total_trajectories := some (NumVal.one tot),
    num_attributes := some (NumVal.one 2),
    attribute_types := some (NumVal.many codes) }

/-- Record line number k of the synthetic body: the step index
followed by six data fields. -/
def mkRec (k : Nat) : String :=
  Nat.repr k ++ " 0.0 80.5 10.25 1000.0 273.15 0.5"

/-- n complete synthetic trajectory blocks: nts+1 record lines with
steps 0..nts, then the two separator lines. -/
def mkBlocks (n : Nat) : List (List String × List String) :=
  List.replicate n
    ((List.range (nts + 1)).map mkRec, [ "SEPARATOR LINE A", "SEPARATOR LINE B" ])

/-- A synthetic run file: header declaring tot trajectories, then
nblocks complete blocks. -/
def mkFile (bt : String) (tot nblocks : Nat) : List String :=
  mkHdr bt tot " 1 3" ++ ((mkBlocks nblocks).map fun b => b.1 ++ b.2).flatten

/-- The filename of the synthetic September 22 run. -/
def fn22 : String := "rtraj_mosaic_1min_2019092200"

/-- Declared 1, one complete block whose two separator lines are
themselves parseable record lines with steps 89 and 90 — the input
separating the real 89-line chunk window from a hypothetical 90-line
one. -/
def fileC2X : List String :=
  mkHdr "2019092200" 1 " 1 3" ++ (List.range (nts + 1)).map mkRec ++
    [ mkRec (nts + 1), mkRec (nts + 2) ]

/-- A header whose attribute-types value line is the first line
containing the body marker: the marker line is consumed by next(f)
and the scan stops at the later marker line. -/
def cexC1 : List String :=
  [ "ATTRIBUTE TYPES =",
    "zz trajectory number 5",
    "TRAJECTORY NUMBER 2" ]

/-- A file whose only line is an attribute-types label: next(f) at
end of file raises StopIteration. -/
def cexC9 : List String :=
  [ "ATTRIBUTE TYPES =" ]

/-- A header with both value-on-next-line fields and no body marker
anywhere. -/
def hdrNoMarker : List String :=
  [ "TRAJECTORY BASE TIME IS 2019092200",
    "ATTRIBUTE TYPES =",
    " 1 3",
    "CLUSTER POINTERS =",
    " 1" ]

/-- Contents of the September 22 run file of the date-range scenario:
one declared trajectory and a single record line. -/
def f22 : List String :=
  mkHdr "2019092200" 1 " 1 3" ++ [ mkRec 0 ]

/-- Contents of the September 24 run file of the date-range scenario. -/
def f24 : List String :=
  mkHdr "2019092400" 1 " 1 3" ++ [ mkRec 0 ]

/-- A directory listing holding run files for September 22 and 24 of
2019 only, plus a file the glob pattern does not match. -/
def entries6 : DirListing :=
  [ ("rtraj_mosaic_1min_2019092200", f22),
    ("notes.txt", [ "not a run file" ]),
    ("rtraj_mosaic_1min_2019092400", f24) ]


/-! ## Lemmas about the header scan -/

set_option maxHeartbeats 2000000 in
/-- A line classified as the body marker contains the marker
substring. -/
theorem classify_marker_hasSub {l : String} (h : classify l = LineKind.marker) :
    hasSub "trajectory number" l = true := by
  cases hx : hasSub "trajectory number" l
  · exfalso
    unfold classify at h
    rw [hx] at h
    rw [if_neg (by simp : ¬ ((false : Bool) = true))] at h
    repeat' split at h
    all_goals exact LineKind.noConfusion h
  · rfl

/-- The count bookkeeping of the scan loop agrees with the physical
line positions: a successful pmGo call whose enumerate counter is i
and whose running count is k (so that the physical position of the
current line is i + k) returns, as its count component, the physical
stop position of the scan when the marker is found, or the final
consumed-line count when the file ends. -/
theorem pm_scan_aux (n : Nat) :
    ∀ (lines : List String), lines.length ≤ n →
    ∀ (i k : Nat) (md : Metadata) (r : Metadata × Nat),
    pmGo lines i k md = Except.ok r →
    scanSpec lines (i + k) k = ScanRes.stopped r.2 ∨
      scanSpec lines (i + k) k = ScanRes.ended r.2 := by
  induction n with
  | zero =>
    intro lines hl i k md r h
    have hnil : lines = [] := List.length_eq_zero.mp (Nat.le_zero.mp hl)
    subst hnil
    simp only [pmGo] at h
    injection h with h2
    subst h2
    exact Or.inr rfl
  | succ n ih =>
    intro lines hl i k md r h
    cases lines with
    | nil =>
      simp only [pmGo] at h
      injection h with h2
      subst h2
      exact Or.inr rfl
    | cons line rest =>
      cases rest with
      | nil =>
        cases hcl : classify (lowerStr line) with
        | marker =>
          simp only [pmGo] at h
          rw [hcl] at h
          injection h with h2
          subst h2
          simp only [scanSpec]
          rw [hcl]
          exact Or.inl (show ScanRes.stopped (i + k) = ScanRes.stopped (k + i) from by
            rw [Nat.add_comm])
        | at2 =>
          simp only [pmGo] at h
          rw [hcl] at h
          exact Except.noConfusion h
        | cp =>
          simp only [pmGo] at h
          rw [hcl] at h
          exact Except.noConfusion h
        | tbt =>
          simp only [pmGo] at h
          rw [hcl] at h
          injection h with h2
          subst h2
          simp only [scanSpec]
          rw [hcl]
          exact Or.inr rfl
        | dbt =>
          simp only [pmGo] at h
          rw [hcl] at h
          injection h with h2
          subst h2
          simp only [scanSpec]
          rw [hcl]
          exact Or.inr rfl
        | b3d =>
          simp only [pmGo] at h
          rw [hcl] at h
          injection h with h2
          subst h2
          simp only [scanSpec]
          rw [hcl]
          exact Or.inr rfl
        | bfd =>
          simp only [pmGo] at h
          rw [hcl] at h
          injection h with h2
          subst h2
          simp only [scanSpec]
          rw [hcl]
          exact Or.inr rfl
        | bfw =>
          simp only [pmGo] at h
          rw [hcl] at h
          injection h with h2
          subst h2
          simp only [scanSpec]
          rw [hcl]
          exact Or.inr rfl
        | other =>
          simp only [pmGo] at h
          rw [hcl] at h
          injection h with h2
          subst h2
          simp only [scanSpec]
          rw [hcl]
          exact Or.inr rfl
        | tot =>
          simp only [pmGo] at h
          rw [hcl] at h
          simp only [scanSpec]
          rw [hcl]
          cases hgn : get_numeric (lowerStr line) with
          | error e =>
            rw [hgn] at h
            exact Except.noConfusion h
          | ok v =>
            rw [hgn] at h
            injection h with h2
            subst h2
            exact Or.inr rfl
        | na =>
          simp only [pmGo] at h
          rw [hcl] at h
          simp only [scanSpec]
          rw [hcl]
          cases hgn : get_numeric (lowerStr line) with
          | error e =>
            rw [hgn] at h
            exact Except.noConfusion h
          | ok v =>
            rw [hgn] at h
            injection h with h2
            subst h2
            exact Or.inr rfl
        | nc =>
          simp only [pmGo] at h
          rw [hcl] at h
          simp only [scanSpec]
          rw [hcl]
          cases hgn : get_numeric (lowerStr line) with
          | error e =>
            rw [hgn] at h
            exact Except.noConfusion h
          | ok v =>
            rw [hgn] at h
            injection h with h2
            subst h2
            exact Or.inr rfl
        | di =>
          simp only [pmGo] at h
          rw [hcl] at h
          simp only [scanSpec]
          rw [hcl]
          cases hgn : get_numeric (lowerStr line) with
          | error e =>
            rw [hgn] at h
            exact Except.noConfusion h
          | ok v =>
            rw [hgn] at h
            cases v with
            | one x => exact Except.noConfusion h
            | many ns =>
              rcases ns with _ | ⟨a, _ | ⟨b, _ | ⟨c, t⟩⟩⟩
              · exact Except.noConfusion h
              · exact Except.noConfusion h
              · injection h with h2
                subst h2
                exact Or.inr rfl
              · exact Except.noConfusion h
      | cons nxt r2 =>
        have hrest : (nxt :: r2).length ≤ n := by
          simp only [List.length_cons] at hl ⊢
          omega
        have hr2 : r2.length ≤ n := by
          simp only [List.length_cons] at hl
          omega
        cases hcl : classify (lowerStr line) with
        | marker =>
          simp only [pmGo] at h
          rw [hcl] at h
          injection h with h2
          subst h2
          simp only [scanSpec]
          rw [hcl]
          exact Or.inl (show ScanRes.stopped (i + k) = ScanRes.stopped (k + i) from by
            rw [Nat.add_comm])
        | tbt =>
          simp only [pmGo] at h
          rw [hcl] at h
          simp only [scanSpec]
          rw [hcl]
          have hres := ih (nxt :: r2) hrest (i + 1) k _ r h
          rwa [Nat.add_right_comm] at hres
        | dbt =>
          simp only [pmGo] at h
          rw [hcl] at h
          simp only [scanSpec]
          rw [hcl]
          have hres := ih (nxt :: r2) hrest (i + 1) k _ r h
          rwa [Nat.add_right_comm] at hres
        | b3d =>
          simp only [pmGo] at h
          rw [hcl] at h
          simp only [scanSpec]
          rw [hcl]
          have hres := ih (nxt :: r2) hrest (i + 1) k _ r h
          rwa [Nat.add_right_comm] at hres
        | bfd =>
          simp only [pmGo] at h
          rw [hcl] at h
          simp only [scanSpec]
          rw [hcl]
          have hres := ih (nxt :: r2) hrest (i + 1) k _ r h
          rwa [Nat.add_right_comm] at hres
        | bfw =>
          simp only [pmGo] at h
          rw [hcl] at h
          simp only [scanSpec]
          rw [hcl]
          have hres := ih (nxt :: r2) hrest (i + 1) k _ r h
          rwa [Nat.add_right_comm] at hres
        | other =>
          simp only [pmGo] at h
          rw [hcl] at h
          simp only [scanSpec]
          rw [hcl]
          have hres := ih (nxt :: r2) hrest (i + 1) k _ r h
          rwa [Nat.add_right_comm] at hres
        | tot =>
          simp only [pmGo] at h
          rw [hcl] at h
          simp only [scanSpec]
          rw [hcl]
          cases hgn : get_numeric (lowerStr line) with
          | error e =>
            rw [hgn] at h
            exact Except.noConfusion h
          | ok v =>
            rw [hgn] at h
            have hres := ih (nxt :: r2) hrest (i + 1) k _ r h
            rwa [Nat.add_right_comm] at hres
        | na =>
          simp only [pmGo] at h
          rw [hcl] at h
          simp only [scanSpec]
          rw [hcl]
          cases hgn : get_numeric (lowerStr line) with
          | error e =>
            rw [hgn] at h
            exact Except.noConfusion h
          | ok v =>
            rw [hgn] at h
            have hres := ih (nxt :: r2) hrest (i + 1) k _ r h
            rwa [Nat.add_right_comm] at hres
        | nc =>
          simp only [pmGo] at h
          rw [hcl] at h
          simp only [scanSpec]
          rw [hcl]
          cases hgn : get_numeric (lowerStr line) with
          | error e =>
            rw [hgn] at h
            exact Except.noConfusion h
          | ok v =>
            rw [hgn] at h
            have hres := ih (nxt :: r2) hrest (i + 1) k _ r h
            rwa [Nat.add_right_comm] at hres
        | di =>
          simp only [pmGo] at h
          rw [hcl] at h
          simp only [scanSpec]
          rw [hcl]
          cases hgn : get_numeric (lowerStr line) with
          | error e =>
            rw [hgn] at h
            exact Except.noConfusion h
          | ok v =>
            rw [hgn] at h
            cases v with
            | one x => exact Except.noConfusion h
            | many ns =>
              rcases ns with _ | ⟨a, _ | ⟨b, _ | ⟨c, t⟩⟩⟩
              · exact Except.noConfusion h
              · exact Except.noConfusion h
              · have hres := ih (nxt :: r2) hrest (i + 1) k _ r h
                rwa [Nat.add_right_comm] at hres
              · exact Except.noConfusion h
        | at2 =>
          simp only [pmGo] at h
          rw [hcl] at h
          simp only [scanSpec]
          rw [hcl]
          cases hgn : get_numeric nxt with
          | error e =>
            rw [hgn] at h
            exact Except.noConfusion h
          | ok v =>
            rw [hgn] at h
            have hres := ih r2 hr2 (i + 1) (k + 1) _ r h
            have harith : i + 1 + (k + 1) = i + k + 2 := by omega
            rwa [harith] at hres
        | cp =>
          simp only [pmGo] at h
          rw [hcl] at h
          simp only [scanSpec]
          rw [hcl]
          cases hgn : get_numeric nxt with
          | error e =>
            rw [hgn] at h
            exact Except.noConfusion h
          | ok v =>
            rw [hgn] at h
            have hres := ih r2 hr2 (i + 1) (k + 1) _ r h
            have harith : i + 1 + (k + 1) = i + k + 2 := by omega
            rwa [harith] at hres

/-- pm_scan_aux at the top-level call of process_metadata. -/
theorem process_metadata_scan (lines : List String) (md : Metadata) (c : Nat)
    (h : process_metadata lines = Except.ok (md, c)) :
    scanSpec lines 0 0 = ScanRes.stopped c ∨ scanSpec lines 0 0 = ScanRes.ended c := by
  have hres := pm_scan_aux lines.length lines le_rfl 0 0 {} (md, c) h
  simpa using hres

/-- When the scan stops, it stops on a line containing the marker:
from scanSpec lines p k = stopped q one gets p ≤ q together with the
marker on the line q - p positions into the remaining suffix. -/
theorem scan_stopped_marker_aux (n : Nat) :
    ∀ (lines : List String), lines.length ≤ n →
    ∀ (p k q : Nat), scanSpec lines p k = ScanRes.stopped q →
    p ≤ q ∧ markerAt lines (q - p) = true := by
  induction n with
  | zero =>
    intro lines hl p k q h
    have hnil : lines = [] := List.length_eq_zero.mp (Nat.le_zero.mp hl)
    subst hnil
    simp only [scanSpec] at h
    exact ScanRes.noConfusion h
  | succ n ih =>
    intro lines hl p k q h
    cases lines with
    | nil =>
      simp only [scanSpec] at h
      exact ScanRes.noConfusion h
    | cons line rest =>
      cases rest with
      | nil =>
        cases hcl : classify (lowerStr line) with
        | marker =>
          simp only [scanSpec] at h
          rw [hcl] at h
          injection h with h2
          subst h2
          refine ⟨Nat.le_refl p, ?_⟩
          simp only [Nat.sub_self, markerAt, List.drop]
          exact classify_marker_hasSub hcl
        | at2 =>
          simp only [scanSpec] at h
          rw [hcl] at h
          exact ScanRes.noConfusion h
        | cp =>
          simp only [scanSpec] at h
          rw [hcl] at h
          exact ScanRes.noConfusion h
        | tbt =>
          simp only [scanSpec] at h
          rw [hcl] at h
          have h2 : ScanRes.ended k = ScanRes.stopped q := h
          exact ScanRes.noConfusion h2
        | dbt =>
          simp only [scanSpec] at h
          rw [hcl] at h
          have h2 : ScanRes.ended k = ScanRes.stopped q := h
          exact ScanRes.noConfusion h2
        | di =>
          simp only [scanSpec] at h
          rw [hcl] at h
          have h2 : ScanRes.ended k = ScanRes.stopped q := h
          exact ScanRes.noConfusion h2
        | tot =>
          simp only [scanSpec] at h
          rw [hcl] at h
          have h2 : ScanRes.ended k = ScanRes.stopped q := h
          exact ScanRes.noConfusion h2
        | na =>
          simp only [scanSpec] at h
          rw [hcl] at h
          have h2 : ScanRes.ended k = ScanRes.stopped q := h
          exact ScanRes.noConfusion h2
        | nc =>
          simp only [scanSpec] at h
          rw [hcl] at h
          have h2 : ScanRes.ended k = ScanRes.stopped q := h
          exact ScanRes.noConfusion h2
        | b3d =>
          simp only [scanSpec] at h
          rw [hcl] at h
          have h2 : ScanRes.ended k = ScanRes.stopped q := h
          exact ScanRes.noConfusion h2
        | bfd =>
          simp only [scanSpec] at h
          rw [hcl] at h
          have h2 : ScanRes.ended k = ScanRes.stopped q := h
          exact ScanRes.noConfusion h2
        | bfw =>
          simp only [scanSpec] at h
          rw [hcl] at h
          have h2 : ScanRes.ended k = ScanRes.stopped q := h
          exact ScanRes.noConfusion h2
        | other =>
          simp only [scanSpec] at h
          rw [hcl] at h
          have h2 : ScanRes.ended k = ScanRes.stopped q := h
          exact ScanRes.noConfusion h2
      | cons nxt r2 =>
        have hrest : (nxt :: r2).length ≤ n := by
          simp only [List.length_cons] at hl ⊢
          omega
        have hr2 : r2.length ≤ n := by
          simp only [List.length_cons] at hl
          omega
        cases hcl : classify (lowerStr line) with
        | marker =>
          simp only [scanSpec] at h
          rw [hcl] at h
          injection h with h2
          subst h2
          refine ⟨Nat.le_refl p, ?_⟩
          simp only [Nat.sub_self, markerAt, List.drop]
          exact classify_marker_hasSub hcl
        | at2 =>
          simp only [scanSpec] at h
          rw [hcl] at h
          obtain ⟨hle, hm⟩ := ih r2 hr2 (p + 2) (k + 1) q h
          refine ⟨by omega, ?_⟩
          have harith : q - p = q - (p + 2) + 1 + 1 := by omega
          rw [harith]
          simpa only [markerAt, List.drop_succ_cons] using hm
        | cp =>
          simp only [scanSpec] at h
          rw [hcl] at h
          obtain ⟨hle, hm⟩ := ih r2 hr2 (p + 2) (k + 1) q h
          refine ⟨by omega, ?_⟩
          have harith : q - p = q - (p + 2) + 1 + 1 := by omega
          rw [harith]
          simpa only [markerAt, List.drop_succ_cons] using hm
        | tbt =>
          simp only [scanSpec] at h
          rw [hcl] at h
          obtain ⟨hle, hm⟩ := ih (nxt :: r2) hrest (p + 1) k q h
          refine ⟨by omega, ?_⟩
          have harith : q - p = q - (p + 1) + 1 := by omega
          rw [harith]
          simpa only [markerAt, List.drop_succ_cons] using hm
        | dbt =>
          simp only [scanSpec] at h
          rw [hcl] at h
          obtain ⟨hle, hm⟩ := ih (nxt :: r2) hrest (p + 1) k q h
          refine ⟨by omega, ?_⟩
          have harith : q - p = q - (p + 1) + 1 := by omega
          rw [harith]
          simpa only [markerAt, List.drop_succ_cons] using hm
        | di =>
          simp only [scanSpec] at h
          rw [hcl] at h
          obtain ⟨hle, hm⟩ := ih (nxt :: r2) hrest (p + 1) k q h
          refine ⟨by omega, ?_⟩
          have harith : q - p = q - (p + 1) + 1 := by omega
          rw [harith]
          simpa only [markerAt, List.drop_succ_cons] using hm
        | tot =>
          simp only [scanSpec] at h
          rw [hcl] at h
          obtain ⟨hle, hm⟩ := ih (nxt :: r2) hrest (p + 1) k q h
          refine ⟨by omega, ?_⟩
          have harith : q - p = q - (p + 1) + 1 := by omega
          rw [harith]
          simpa only [markerAt, List.drop_succ_cons] using hm
        | na =>
          simp only [scanSpec] at h
          rw [hcl] at h
          obtain ⟨hle, hm⟩ := ih (nxt :: r2) hrest (p + 1) k q h
          refine ⟨by omega, ?_⟩
          have harith : q - p = q - (p + 1) + 1 := by omega
          rw [harith]
          simpa only [markerAt, List.drop_succ_cons] using hm
        | nc =>
          simp only [scanSpec] at h
          rw [hcl] at h
          obtain ⟨hle, hm⟩ := ih (nxt :: r2) hrest (p + 1) k q h
          refine ⟨by omega, ?_⟩
          have harith : q - p = q - (p + 1) + 1 := by omega
          rw [harith]
          simpa only [markerAt, List.drop_succ_cons] using hm
        | b3d =>
          simp only [scanSpec] at h
          rw [hcl] at h
          obtain ⟨hle, hm⟩ := ih (nxt :: r2) hrest (p + 1) k q h
          refine ⟨by omega, ?_⟩
          have harith : q - p = q - (p + 1) + 1 := by omega
          rw [harith]
          simpa only [markerAt, List.drop_succ_cons] using hm
        | bfd =>
          simp only [scanSpec] at h
          rw [hcl] at h
          obtain ⟨hle, hm⟩ := ih (nxt :: r2) hrest (p + 1) k q h
          refine ⟨by omega, ?_⟩
          have harith : q - p = q - (p + 1) + 1 := by omega
          rw [harith]
          simpa only [markerAt, List.drop_succ_cons] using hm
        | bfw =>
          simp only [scanSpec] at h
          rw [hcl] at h
          obtain ⟨hle, hm⟩ := ih (nxt :: r2) hrest (p + 1) k q h
          refine ⟨by omega, ?_⟩
          have harith : q - p = q - (p + 1) + 1 := by omega
          rw [harith]
          simpa only [markerAt, List.drop_succ_cons] using hm
        | other =>
          simp only [scanSpec] at h
          rw [hcl] at h
          obtain ⟨hle, hm⟩ := ih (nxt :: r2) hrest (p + 1) k q h
          refine ⟨by omega, ?_⟩
          have harith : q - p = q - (p + 1) + 1 := by omega
          rw [harith]
          simpa only [markerAt, List.drop_succ_cons] using hm

/-! ## Lemmas about the block-reading loop -/

/-- With no record lines left, every remaining slot stays None. -/
theorem readBlocksGo_nil (n : Nat) : readBlocksGo [] n = List.replicate n none := by
  cases n with
  | zero => rfl
  | succ n => simp [readBlocksGo, List.replicate]

/-- On a body made of complete blocks (nts+1 record lines плюс 2
separator lines each) followed by nothing, the loop reads one chunk
per block, in order, and leaves the remaining slots None. -/
theorem readBlocksGo_blocks (blocks : List (List String × List String)) (m : Nat)
    (hb : ∀ b ∈ blocks, b.1.length = nts + 1 ∧ b.2.length = 2) :
    readBlocksGo ((blocks.map fun b => b.1 ++ b.2).flatten) (blocks.length + m) =
      blocks.map (fun b => some b.1) ++ List.replicate m none := by
  induction blocks with
  | nil => simpa using readBlocksGo_nil m
  | cons b bs ih =>
    obtain ⟨h1, h2⟩ := hb b (List.mem_cons_self b bs)
    have hbs : ∀ x ∈ bs, x.1.length = nts + 1 ∧ x.2.length = 2 := fun x hx =>
      hb x (List.mem_cons_of_mem b hx)
    simp only [List.map_cons, List.flatten_cons, List.length_cons]
    have hshape : (b.1 ++ b.2) ++ (bs.map fun x => x.1 ++ x.2).flatten =
        b.1 ++ (b.2 ++ (bs.map fun x => x.1 ++ x.2).flatten) := by
      rw [List.append_assoc]
    have hlen : bs.length + 1 + m = (bs.length + m) + 1 := by omega
    rw [hshape, hlen]
    simp only [readBlocksGo]
    have hne : (b.1 ++ (b.2 ++ (bs.map fun x => x.1 ++ x.2).flatten)).isEmpty = false := by
      cases hv : b.1 with
      | nil => rw [hv] at h1; simp at h1
      | cons c cs => simp [hv]
    rw [hne]
    simp only [Bool.false_eq_true, if_false]
    rw [List.take_left' h1, List.drop_left' h1]
    have hne2 : (b.2 ++ (bs.map fun x => x.1 ++ x.2).flatten).isEmpty = false := by
      cases hv : b.2 with
      | nil => rw [hv] at h2; simp at h2
      | cons c cs => simp [hv]
    rw [hne2]
    simp only [Bool.false_eq_true, if_false]
    rw [List.drop_left' h2]
    rw [ih hbs]
    simp

/-- pd.concat drops None entries: with only None chunks nothing is
kept. -/
theorem combineChunks_none : ∀ (keys : List Nat) (m : Nat),
    combineChunks keys (List.replicate m none) = [] := by
  intro keys
  induction keys with
  | nil => intro m; simp [combineChunks]
  | cons a ks ih =>
    intro m
    cases m with
    | zero => simp [combineChunks]
    | succ m =>
      simp only [List.replicate, combineChunks, List.zip_cons_cons, List.filterMap_cons]
      simpa [combineChunks] using ih m

/-- pd.concat: zipping the keys with chunks that are all present up
to a tail of None slots keeps exactly the present chunks, pairing
them with the leading keys in order. -/
theorem combineChunks_some (cs : List (List String)) :
    ∀ (keys : List Nat) (m : Nat), keys.length = cs.length + m →
    combineChunks keys (cs.map some ++ List.replicate m none) =
      keys.zip (cs.map fun ls => ls.map parseRecord) := by
  induction cs with
  | nil =>
    intro keys m hl
    simp only [List.map_nil, List.nil_append, List.zip_nil_right]
    exact combineChunks_none keys m
  | cons c cs ih =>
    intro keys m hl
    cases keys with
    | nil => simp only [List.length_nil, List.length_cons] at hl; omega
    | cons a ks =>
      have hks : ks.length = cs.length + m := by
        simp only [List.length_cons] at hl; omega
      have hthis := ih ks m hks
      simp only [combineChunks, List.map_cons, List.cons_append, List.zip_cons_cons,
        List.filterMap_cons, Option.map_some'] at hthis ⊢
      rw [hthis]

/-- The central characterisation of read_traj on a structurally
well-formed body: with a header that parses, a filename frequency
token that parses, and a body of complete blocks followed by nothing,
the result is the per-block tables keyed by base-date minutes plus
block index times the frequency, one table per block present (the
keys list has the declared length npart = blocks.length + pad and zip
truncates it to the blocks actually present). -/
theorem read_traj_blocks
    (fname : String) (lines : List String) (md : Metadata) (endc : Nat)
    (bt freq : String) (y mo d hh npart fmin : Nat) (codes : List Nat) (names : List String)
    (blocks : List (List String × List String)) (pad : Nat)
    (hpm : process_metadata lines = Except.ok (md, endc))
    (hfq : freqOfName fname = some freq)
    (hbt : md.trajectory_base_time = some bt)
    (hstrp : strptime10 bt = some (y, mo, d, hh))
    (htot : md.total_trajectories = some (NumVal.one npart))
    (hat : md.attribute_types = some (NumVal.many codes))
    (hnm : mapOpt ATTR codes = some names)
    (hpf : parseFreq freq = some fmin)
    (hbody : lines.drop (endc + 1 + 1) = (blocks.map fun b => b.1 ++ b.2).flatten)
    (hbl : ∀ b ∈ blocks, b.1.length = nts + 1 ∧ b.2.length = 2)
    (hcount : npart = blocks.length + pad)
    (hpos : 0 < blocks.length) :
    read_traj fname lines =
      Except.ok
        ((((List.range npart).map fun j => civilToDays (y, mo, d) * 1440 + j * fmin).zip
            (blocks.map fun b => b.1.map parseRecord)),
          { md with attribute_names := some names }) := by
  have hchunks : readBlocksGo (lines.drop (endc + 1 + 1)) npart =
      (blocks.map fun b => b.1).map some ++ List.replicate pad none := by
    rw [hbody, hcount, readBlocksGo_blocks blocks pad hbl]
    simp [List.map_map]
  have hkeylen : ((List.range npart).map
      fun j => civilToDays (y, mo, d) * 1440 + j * fmin).length =
      (blocks.map fun b => b.1).length + pad := by
    simp [hcount]
  have hcomb : combineChunks
      ((List.range npart).map fun j => civilToDays (y, mo, d) * 1440 + j * fmin)
      ((blocks.map fun b => b.1).map some ++ List.replicate pad none) =
      ((List.range npart).map fun j => civilToDays (y, mo, d) * 1440 + j * fmin).zip
        (blocks.map fun b => b.1.map parseRecord) := by
    rw [combineChunks_some _ _ _ hkeylen]
    simp [List.map_map, Function.comp_def]
  have hlenz : (((List.range npart).map
      fun j => civilToDays (y, mo, d) * 1440 + j * fmin).zip
        (blocks.map fun b => b.1.map parseRecord)).length = blocks.length := by
    rw [List.length_zip]
    simp only [List.length_map, List.length_range]
    omega
  have hne : (((List.range npart).map
      fun j => civilToDays (y, mo, d) * 1440 + j * fmin).zip
        (blocks.map fun b => b.1.map parseRecord)).isEmpty = false := by
    rw [Bool.eq_false_iff]
    intro hcontra
    rw [List.isEmpty_iff] at hcontra
    rw [hcontra] at hlenz
    simp only [List.length_nil] at hlenz
    omega
  simp only [read_traj, hpm, hfq, hbt, hstrp, htot, hat, hnm, hpf, hchunks, hcomb, hne]
  simp

/-! ## Helper lemmas for the claim theorems -/

/-- The release-timestamp keys of a run are strictly increasing for a
positive frequency. -/
theorem keys_pairwise_lt (base f n : Nat) (hf : 0 < f) :
    ((List.range n).map fun j => base + j * f).Pairwise (· < ·) := by
  refine List.Pairwise.map _ ?_ (List.pairwise_lt_range n)
  intro a b hab
  exact Nat.add_lt_add_left ((Nat.mul_lt_mul_right hf).mpr hab) base

/-- Distinct outer keys and duplicate-free step columns make the
(release timestamp, step) pairs of a run table duplicate-free. -/
theorem rowKeys_nodup (tbl : RunTable)
    (hkeys : (tbl.map Prod.fst).Pairwise (· ≠ ·))
    (hsteps : ∀ e ∈ tbl, (e.2.map Prod.fst).Nodup) :
    (rowKeys tbl).Nodup := by
  unfold rowKeys
  rw [List.nodup_flatten]
  constructor
  · intro l hl
    obtain ⟨e, he, rfl⟩ := List.mem_map.mp hl
    have hrw : (e.2.map fun r => (e.1, r.1)) = (e.2.map Prod.fst).map fun s => (e.1, s) := by
      simp [List.map_map, Function.comp_def]
    rw [hrw]
    refine List.Nodup.map ?_ (hsteps e he)
    intro a b hab
    simpa using congrArg Prod.snd hab
  · have hk : tbl.Pairwise fun e1 e2 => e1.1 ≠ e2.1 := List.pairwise_map.mp hkeys
    refine List.Pairwise.map _ ?_ hk
    intro e1 e2 hne a ha1 ha2
    obtain ⟨r1, _, hr1⟩ := List.mem_map.mp ha1
    obtain ⟨r2, _, hr2⟩ := List.mem_map.mp ha2
    apply hne
    have h1 : a.1 = e1.1 := by rw [← hr1]
    have h2 : a.1 = e2.1 := by rw [← hr2]
    rw [← h1, ← h2]

/-- The list comprehension succeeds, preserving length, when every
element read succeeds. -/
theorem mapE_ok_of_all {α β : Type} (f : α → Except PyErr β) (l : List α)
    (h : ∀ x ∈ l, isOkB (f x) = true) :
    ∃ out, mapE f l = Except.ok out ∧ out.length = l.length := by
  induction l with
  | nil => exact ⟨[], rfl, rfl⟩
  | cons x xs ih =>
    have hx := h x (List.mem_cons_self x xs)
    cases hfx : f x with
    | error e => rw [hfx] at hx; simp [isOkB] at hx
    | ok y =>
      obtain ⟨out, ho, hlen⟩ := ih fun z hz => h z (List.mem_cons_of_mem x hz)
      refine ⟨y :: out, ?_, by simp [hlen]⟩
      simp [mapE, hfx, ho]

/-- The working directory is restored by the post-validation part of
read_data on every path. -/
theorem read_data_body_cwd (cwd input_dir : String) (entries : DirListing)
    (sd : Nat × Nat × Nat) (ed : Option (Nat × Nat × Nat)) :
    (read_data_body cwd input_dir entries sd ed).2 = cwd := by
  simp only [read_data_body]
  split <;> rfl

/-! ## The claims -/

/-- C1 counterexample: in a file whose first marker-bearing line is
the value line of an attribute-types field, that line is consumed by
next(f) and never tested, so the returned count (2: one consumed
value line plus the enumerate index 1 of the line the scan stops on)
differs from the number of physical lines (1) preceding the first
marker line, falsifying the claim as stated. -/
theorem c1_counterexample :
    pmCount cexC1 = some 2 ∧
      cexC1.findIdx (fun l => hasSub "trajectory number" (lowerStr l)) = 1 ∧
      (2 : Nat) ≠ 1 := by
  refine ⟨by decide, by decide, by decide⟩

/-- C1 (amended): whenever process_metadata succeeds and the scan
stops at a body marker — at the first marker-bearing line the scan
itself reaches, lines consumed as attribute-types or
cluster-pointers values not being scanned — the returned
header_line_count equals the physical index of (that is, the exact
number of physical lines preceding) that marker line, the extra
value-on-next-line consumptions counted correctly. -/
theorem c1_header_line_count (lines : List String) (c q : Nat)
    (hpm : pmCount lines = some c)
    (hscan : scanSpec lines 0 0 = ScanRes.stopped q) :
    c = q ∧ markerAt lines q = true := by
  unfold pmCount at hpm
  cases hres : process_metadata lines with
  | error e =>
    rw [hres] at hpm
    exact Option.noConfusion hpm
  | ok r =>
    rw [hres] at hpm
    injection hpm with h2
    have hsc := process_metadata_scan lines r.1 r.2 (by rw [hres])
    have hmk := scan_stopped_marker_aux lines.length lines le_rfl 0 0 q hscan
    rcases hsc with hs | hs
    · rw [hscan] at hs
      injection hs with h3
      refine ⟨by omega, ?_⟩
      simpa using hmk.2
    · rw [hscan] at hs
      exact ScanRes.noConfusion hs

/-- C1 witness: on a representative header the scan stops at physical
line 5 and process_metadata indeed returns 5. -/
theorem c1_witness :
    pmCount (mkHdr "2019092200" 3 " 1 3") = some 5 ∧
      scanSpec (mkHdr "2019092200" 3 " 1 3") 0 0 = ScanRes.stopped 5 ∧
      (5 : Nat) = 5 ∧ markerAt (mkHdr "2019092200" 3 " 1 3") 5 = true := by
  have h := c1_header_line_count (mkHdr "2019092200" 3 " 1 3") 5 5 (by decide) (by decide)
  exact ⟨by decide, by decide, h.1, h.2⟩

/-- C9 counterexample: a file whose only line is an attribute-types
label has no marker line at all, yet process_metadata does not return
normally — next(f) at end of file raises StopIteration — falsifying
the claim that every marker-free file is processed without error. -/
theorem c9_counterexample :
    process_metadata cexC9 = Except.error PyErr.stopIteration ∧
      (∀ l ∈ cexC9, hasSub "trajectory number" (lowerStr l) = false) := by
  refine ⟨by rfl, by decide⟩

/-- C9 (amended): when no line of the file contains the marker, the
missing body marker is never itself reported as an error: whenever
the per-field extractions succeed, process_metadata returns normally
and the returned header_line_count equals exactly the number of
value-on-next-line lines consumed for the attribute-types and
cluster-pointers fields (the ended count of the scan replay). -/
theorem c9_no_marker_count (lines : List String) (c k : Nat)
    (hnm : ∀ l ∈ lines, hasSub "trajectory number" (lowerStr l) = false)
    (hpm : pmCount lines = some c)
    (hend : scanSpec lines 0 0 = ScanRes.ended k) :
    c = k := by
  unfold pmCount at hpm
  cases hres : process_metadata lines with
  | error e =>
    rw [hres] at hpm
    exact Option.noConfusion hpm
  | ok r =>
    rw [hres] at hpm
    injection hpm with h2
    have hsc := process_metadata_scan lines r.1 r.2 (by rw [hres])
    rcases hsc with hs | hs
    · obtain ⟨-, hmk⟩ := scan_stopped_marker_aux lines.length lines le_rfl 0 0 r.2 hs
      rw [Nat.sub_zero] at hmk
      cases hdrop : lines.drop r.2 with
      | nil =>
        unfold markerAt at hmk
        rw [hdrop] at hmk
        exact Bool.noConfusion hmk
      | cons l t =>
        unfold markerAt at hmk
        rw [hdrop] at hmk
        have hl : l ∈ lines :=
          List.drop_subset r.2 lines (by rw [hdrop]; exact List.mem_cons_self l t)
        have hmk2 : hasSub "trajectory number" (lowerStr l) = true := hmk
        rw [hnm l hl] at hmk2
        exact Bool.noConfusion hmk2
    · rw [hend] at hs
      injection hs with h3
      omega

/-- C9 witness: a marker-free header with one attribute-types and one
cluster-pointers field returns normally with count 2, the two value
lines consumed. -/
theorem c9_witness :
    (∀ l ∈ hdrNoMarker, hasSub "trajectory number" (lowerStr l) = false) ∧
      pmCount hdrNoMarker = some 2 ∧
      scanSpec hdrNoMarker 0 0 = ScanRes.ended 2 ∧ (2 : Nat) = 2 := by
  refine ⟨by decide, by decide, by decide, ?_⟩
  exact c9_no_marker_count hdrNoMarker 2 2 (by decide) (by decide) (by decide)

/-- C2 counterexample: the chunk window of read_traj is nts+1 = 89
record lines (nts being the fixed constant 88), not the claimed 89+1:
on a file whose block is followed by two further parseable record
lines (steps 89 and 90), the single resulting block holds exactly the
89 records with steps 0..88 — the 90th record line is discarded as a
separator — refuting the claimed window of steps_per_trajectory + 1 =
90 record lines with steps_per_trajectory = 89. -/
theorem c2_counterexample :
    firstBlockSteps (read_traj fn22 fileC2X) = some ((List.range (nts + 1)).map Nat.repr) ∧
      blockLens (read_traj fn22 fileC2X) = some [ nts + 1 ] ∧
      nts + 1 ≠ nts + 1 + 1 := by
  refine ⟨by decide, by decide, by decide⟩

/-- C2 (amended): on a well-formed file read_traj consumes each
trajectory block as a fixed window of nts + 1 = 89 whitespace-
delimited record lines (nts being the fixed constant 88) followed by
2 discarded separator lines; the result pairs the k-th block, parsed
record by record, with the k-th release timestamp, and for
trajectory_count = npart blocks the table has npart distinct
outer-index timestamps with nts + 1 = 89 rows under each. -/
theorem c2_block_layout
    (fname : String) (lines : List String) (md : Metadata) (endc : Nat)
    (bt freq : String) (y mo d hh npart fmin : Nat) (codes : List Nat) (names : List String)
    (blocks : List (List String × List String))
    (hpm : process_metadata lines = Except.ok (md, endc))
    (hfq : freqOfName fname = some freq)
    (hbt : md.trajectory_base_time = some bt)
    (hstrp : strptime10 bt = some (y, mo, d, hh))
    (htot : md.total_trajectories = some (NumVal.one npart))
    (hat : md.attribute_types = some (NumVal.many codes))
    (hnm : mapOpt ATTR codes = some names)
    (hpf : parseFreq freq = some fmin)
    (hfpos : 0 < fmin)
    (hbody : lines.drop (endc + 1 + 1) = (blocks.map fun b => b.1 ++ b.2).flatten)
    (hbl : ∀ b ∈ blocks, b.1.length = nts + 1 ∧ b.2.length = 2)
    (hcount : npart = blocks.length)
    (hpos : 0 < npart) :
    read_traj fname lines =
      Except.ok
        ((((List.range npart).map fun j => civilToDays (y, mo, d) * 1440 + j * fmin).zip
            (blocks.map fun b => b.1.map parseRecord)),
          { md with attribute_names := some names }) ∧
    (((List.range npart).map fun j => civilToDays (y, mo, d) * 1440 + j * fmin).zip
        (blocks.map fun b => b.1.map parseRecord)).length = npart ∧
    (∀ e ∈ ((List.range npart).map fun j => civilToDays (y, mo, d) * 1440 + j * fmin).zip
        (blocks.map fun b => b.1.map parseRecord), e.2.length = nts + 1) ∧
    ((((List.range npart).map fun j => civilToDays (y, mo, d) * 1440 + j * fmin).zip
        (blocks.map fun b => b.1.map parseRecord)).map Prod.fst).Nodup := by
  have hmain := read_traj_blocks fname lines md endc bt freq y mo d hh npart fmin codes names
    blocks 0 hpm hfq hbt hstrp htot hat hnm hpf hbody hbl (by omega) (by omega)
  have hlenkeys : (((List.range npart).map
      fun j => civilToDays (y, mo, d) * 1440 + j * fmin)).length ≤
      (blocks.map fun b => b.1.map parseRecord).length := by
    simp [hcount]
  refine ⟨hmain, ?_, ?_, ?_⟩
  · rw [List.length_zip]
    simp [hcount]
  · intro e he
    rcases e with ⟨t, rows⟩
    obtain ⟨-, hr⟩ := List.of_mem_zip he
    obtain ⟨b, hb, rfl⟩ := List.mem_map.mp hr
    simp only [List.length_map]
    exact (hbl b hb).1
  · rw [List.map_fst_zip _ _ hlenkeys]
    exact ((keys_pairwise_lt (civilToDays (y, mo, d) * 1440) fmin npart hfpos).imp
      fun hab => Nat.ne_of_lt hab)

/-- C2 witness: the synthetic run with three declared trajectories
and three complete 89+2 blocks yields three distinct outer timestamps
with 89 rows under each. -/
theorem c2_witness :
    read_traj fn22 (mkFile "2019092200" 3 3) =
      Except.ok
        ((((List.range 3).map fun j => civilToDays (2019, 9, 22) * 1440 + j * 1).zip
            ((mkBlocks 3).map fun b => b.1.map parseRecord)),
          { mdOfHdr "2019092200" 3 [ 1, 3 ] with
              attribute_names := some [ "temperature (K)", "potential vorticity (PVU)" ] }) ∧
    (((List.range 3).map fun j => civilToDays (2019, 9, 22) * 1440 + j * 1).zip
        ((mkBlocks 3).map fun b => b.1.map parseRecord)).length = 3 ∧
    (∀ e ∈ ((List.range 3).map fun j => civilToDays (2019, 9, 22) * 1440 + j * 1).zip
        ((mkBlocks 3).map fun b => b.1.map parseRecord), e.2.length = nts + 1) ∧
    ((((List.range 3).map fun j => civilToDays (2019, 9, 22) * 1440 + j * 1).zip
        ((mkBlocks 3).map fun b => b.1.map parseRecord)).map Prod.fst).Nodup := by
  exact c2_block_layout fn22 (mkFile "2019092200" 3 3) (mdOfHdr "2019092200" 3 [ 1, 3 ]) 5
    "2019092200" "1min" 2019 9 22 0 3 1 [ 1, 3 ]
    [ "temperature (K)", "potential vorticity (PVU)" ] (mkBlocks 3)
    (by rfl) (by rfl) (by rfl) (by rfl) (by rfl) (by rfl) (by rfl) (by rfl) (by decide)
    (by rfl) (by decide) (by decide) (by decide)

/-- C3 counterexample: on a file declaring five trajectories but
ending after three complete blocks, read_traj succeeds — no error of
any kind is raised or reported (the code has no TruncatedFileError),
refuting the claimed raises/reports behaviour; the partial table with
exactly three outer entries is simply returned. -/
theorem c3_counterexample :
    isOkB (read_traj fn22 (mkFile "2019092200" 5 3)) = true ∧
      tblLen (read_traj fn22 (mkFile "2019092200" 5 3)) = some 3 ∧
      tblTotal (read_traj fn22 (mkFile "2019092200" 5 3)) = some (some (NumVal.one 5)) := by
  refine ⟨by decide, by decide, by decide⟩

/-- C3 (amended): when the file declares npart trajectory blocks but
ends, at a block boundary, after fewer complete blocks, read_traj
silently succeeds with the partial RunTable holding exactly one outer
entry per block actually present — never padding to the declared
count and never raising. -/
theorem c3_truncated_silent
    (fname : String) (lines : List String) (md : Metadata) (endc : Nat)
    (bt freq : String) (y mo d hh npart fmin pad : Nat) (codes : List Nat) (names : List String)
    (blocks : List (List String × List String))
    (hpm : process_metadata lines = Except.ok (md, endc))
    (hfq : freqOfName fname = some freq)
    (hbt : md.trajectory_base_time = some bt)
    (hstrp : strptime10 bt = some (y, mo, d, hh))
    (htot : md.total_trajectories = some (NumVal.one npart))
    (hat : md.attribute_types = some (NumVal.many codes))
    (hnm : mapOpt ATTR codes = some names)
    (hpf : parseFreq freq = some fmin)
    (hbody : lines.drop (endc + 1 + 1) = (blocks.map fun b => b.1 ++ b.2).flatten)
    (hbl : ∀ b ∈ blocks, b.1.length = nts + 1 ∧ b.2.length = 2)
    (hcount : npart = blocks.length + pad)
    (hppos : 0 < pad)
    (hpos : 0 < blocks.length) :
    read_traj fname lines =
      Except.ok
        ((((List.range npart).map fun j => civilToDays (y, mo, d) * 1440 + j * fmin).zip
            (blocks.map fun b => b.1.map parseRecord)),
          { md with attribute_names := some names }) ∧
    (((List.range npart).map fun j => civilToDays (y, mo, d) * 1440 + j * fmin).zip
        (blocks.map fun b => b.1.map parseRecord)).length = blocks.length ∧
    blocks.length < npart := by
  have hmain := read_traj_blocks fname lines md endc bt freq y mo d hh npart fmin codes names
    blocks pad hpm hfq hbt hstrp htot hat hnm hpf hbody hbl hcount hpos
  refine ⟨hmain, ?_, by omega⟩
  rw [List.length_zip]
  simp only [List.length_map, List.length_range]
  rw [hcount]
  exact min_eq_right (by omega)

/-- C3 witness: declared five, three complete blocks present: the
read succeeds with exactly three outer entries. -/
theorem c3_witness :
    read_traj fn22 (mkFile "2019092200" 5 3) =
      Except.ok
        ((((List.range 5).map fun j => civilToDays (2019, 9, 22) * 1440 + j * 1).zip
            ((mkBlocks 3).map fun b => b.1.map parseRecord)),
          { mdOfHdr "2019092200" 5 [ 1, 3 ] with
              attribute_names := some [ "temperature (K)", "potential vorticity (PVU)" ] }) ∧
    (((List.range 5).map fun j => civilToDays (2019, 9, 22) * 1440 + j * 1).zip
        ((mkBlocks 3).map fun b => b.1.map parseRecord)).length = 3 ∧
    (3 : Nat) < 5 := by
  have h := c3_truncated_silent fn22 (mkFile "2019092200" 5 3) (mdOfHdr "2019092200" 5 [ 1, 3 ])
    5 "2019092200" "1min" 2019 9 22 0 5 1 2 [ 1, 3 ]
    [ "temperature (K)", "potential vorticity (PVU)" ] (mkBlocks 3)
    (by rfl) (by rfl) (by rfl) (by rfl) (by rfl) (by rfl) (by rfl) (by rfl)
    (by rfl) (by decide) (by decide) (by decide) (by decide)
  exact ⟨h.1, h.2.1.trans (by decide), h.2.2⟩

/-- C4 counterexample: a run file declaring two trajectories whose
body holds a single complete block yields a table whose outer index
has one entry, not trajectory_count = 2 evenly spaced timestamps,
refuting the claim for truncated files. -/
theorem c4_counterexample :
    tblLen (read_traj fn22 (mkFile "2019092200" 2 1)) = some 1 ∧
      tblTotal (read_traj fn22 (mkFile "2019092200" 2 1)) = some (some (NumVal.one 2)) ∧
      (1 : Nat) ≠ 2 := by
  refine ⟨by decide, by decide, by decide⟩

/-- C4 (amended): on a file with exactly trajectory_count complete
blocks, a positive filename frequency and duplicate-free per-block
step columns, the outer index consists of the trajectory_count evenly
spaced timestamps base-date + k * frequency, strictly increasing, in
1:1 correspondence with the blocks in file order (the k-th timestamp
keys the k-th block), and the (release timestamp, step) pairs
uniquely identify rows. -/
theorem c4_outer_index
    (fname : String) (lines : List String) (md : Metadata) (endc : Nat)
    (bt freq : String) (y mo d hh npart fmin : Nat) (codes : List Nat) (names : List String)
    (blocks : List (List String × List String))
    (hpm : process_metadata lines = Except.ok (md, endc))
    (hfq : freqOfName fname = some freq)
    (hbt : md.trajectory_base_time = some bt)
    (hstrp : strptime10 bt = some (y, mo, d, hh))
    (htot : md.total_trajectories = some (NumVal.one npart))
    (hat : md.attribute_types = some (NumVal.many codes))
    (hnm : mapOpt ATTR codes = some names)
    (hpf : parseFreq freq = some fmin)
    (hfpos : 0 < fmin)
    (hbody : lines.drop (endc + 1 + 1) = (blocks.map fun b => b.1 ++ b.2).flatten)
    (hbl : ∀ b ∈ blocks, b.1.length = nts + 1 ∧ b.2.length = 2)
    (hsteps : ∀ b ∈ blocks, (b.1.map fun l => (parseRecord l).1).Nodup)
    (hcount : npart = blocks.length)
    (hpos : 0 < npart) :
    read_traj fname lines =
      Except.ok
        ((((List.range npart).map fun j => civilToDays (y, mo, d) * 1440 + j * fmin).zip
            (blocks.map fun b => b.1.map parseRecord)),
          { md with attribute_names := some names }) ∧
    ((((List.range npart).map fun j => civilToDays (y, mo, d) * 1440 + j * fmin).zip
        (blocks.map fun b => b.1.map parseRecord)).map Prod.fst).Pairwise (· < ·) ∧
    (((List.range npart).map fun j => civilToDays (y, mo, d) * 1440 + j * fmin).zip
        (blocks.map fun b => b.1.map parseRecord)).length = npart ∧
    (rowKeys (((List.range npart).map fun j => civilToDays (y, mo, d) * 1440 + j * fmin).zip
        (blocks.map fun b => b.1.map parseRecord))).Nodup := by
  have hmain := read_traj_blocks fname lines md endc bt freq y mo d hh npart fmin codes names
    blocks 0 hpm hfq hbt hstrp htot hat hnm hpf hbody hbl (by omega) (by omega)
  have hlenkeys : (((List.range npart).map
      fun j => civilToDays (y, mo, d) * 1440 + j * fmin)).length ≤
      (blocks.map fun b => b.1.map parseRecord).length := by
    simp [hcount]
  have hfst := List.map_fst_zip
    ((List.range npart).map fun j => civilToDays (y, mo, d) * 1440 + j * fmin)
    (blocks.map fun b => b.1.map parseRecord) hlenkeys
  refine ⟨hmain, ?_, ?_, ?_⟩
  · rw [hfst]
    exact keys_pairwise_lt (civilToDays (y, mo, d) * 1440) fmin npart hfpos
  · rw [List.length_zip]
    simp [hcount]
  · refine rowKeys_nodup _ ?_ ?_
    · rw [hfst]
      exact ((keys_pairwise_lt (civilToDays (y, mo, d) * 1440) fmin npart hfpos).imp
        fun hab => Nat.ne_of_lt hab)
    · intro e he
      rcases e with ⟨t, rows⟩
      obtain ⟨-, hr⟩ := List.of_mem_zip he
      obtain ⟨b, hb, rfl⟩ := List.mem_map.mp hr
      simpa [List.map_map, Function.comp_def] using hsteps b hb

/-- C4 witness: two declared trajectories, two complete blocks with
step columns 0..88: strictly increasing keys one per block and
duplicate-free (timestamp, step) row keys. -/
theorem c4_witness :
    read_traj fn22 (mkFile "2019092200" 2 2) =
      Except.ok
        ((((List.range 2).map fun j => civilToDays (2019, 9, 22) * 1440 + j * 1).zip
            ((mkBlocks 2).map fun b => b.1.map parseRecord)),
          { mdOfHdr "2019092200" 2 [ 1, 3 ] with
              attribute_names := some [ "temperature (K)", "potential vorticity (PVU)" ] }) ∧
    ((((List.range 2).map fun j => civilToDays (2019, 9, 22) * 1440 + j * 1).zip
        ((mkBlocks 2).map fun b => b.1.map parseRecord)).map Prod.fst).Pairwise (· < ·) ∧
    (((List.range 2).map fun j => civilToDays (2019, 9, 22) * 1440 + j * 1).zip
        ((mkBlocks 2).map fun b => b.1.map parseRecord)).length = 2 ∧
    (rowKeys (((List.range 2).map fun j => civilToDays (2019, 9, 22) * 1440 + j * 1).zip
        ((mkBlocks 2).map fun b => b.1.map parseRecord))).Nodup := by
  exact c4_outer_index fn22 (mkFile "2019092200" 2 2) (mdOfHdr "2019092200" 2 [ 1, 3 ]) 5
    "2019092200" "1min" 2019 9 22 0 2 1 [ 1, 3 ]
    [ "temperature (K)", "potential vorticity (PVU)" ] (mkBlocks 2)
    (by rfl) (by rfl) (by rfl) (by rfl) (by rfl) (by rfl) (by rfl) (by rfl) (by decide)
    (by rfl) (by decide) (by decide) (by decide) (by decide)

/-- C5: the ordered attribute codes are mapped through the fixed ATTR
table — codes [1, 3, 4, 10, 159] give exactly the five names in
order — and any code missing from the table makes the read abort
with the KeyError that ATTR lookup raises (the spec's
UnknownAttributeCodeError). -/
theorem c5_attribute_codes :
    (mapOpt ATTR [ 1, 3, 4, 10, 159 ] =
      some [ "temperature (K)", "potential vorticity (PVU)", "specific humidity (kg/kg)",
             "height (m)", "boundary layer height (m)" ]) ∧
    ∀ (fname : String) (lines : List String) (md : Metadata) (endc : Nat)
      (freq bt : String) (y mo d hh : Nat) (nv : NumVal) (codes : List Nat),
      process_metadata lines = Except.ok (md, endc) →
      freqOfName fname = some freq →
      md.trajectory_base_time = some bt →
      strptime10 bt = some (y, mo, d, hh) →
      md.total_trajectories = some nv →
      md.attribute_types = some (NumVal.many codes) →
      mapOpt ATTR codes = none →
      read_traj fname lines = Except.error PyErr.keyError := by
  constructor
  · rfl
  · intro fname lines md endc freq bt y mo d hh nv codes hpm hfq hbt hstrp htot hat hbad
    simp [read_traj, hpm, hfq, hbt, hstrp, htot, hat, hbad]

/-- C5 witness: the five reference codes map to the five names, and a
header declaring codes 1 and 999 aborts the read with KeyError. -/
theorem c5_witness :
    (mapOpt ATTR [ 1, 3, 4, 10, 159 ] =
      some [ "temperature (K)", "potential vorticity (PVU)", "specific humidity (kg/kg)",
             "height (m)", "boundary layer height (m)" ]) ∧
    read_traj fn22 (mkHdr "2019092200" 1 " 1 999") = Except.error PyErr.keyError := by
  refine ⟨c5_attribute_codes.1, ?_⟩
  exact c5_attribute_codes.2 fn22 (mkHdr "2019092200" 1 " 1 999")
    (mdOfHdr "2019092200" 1 [ 1, 999 ]) 5 "1min" "2019092200" 2019 9 22 0
    (NumVal.one 1) [ 1, 999 ] (by rfl) (by rfl) (by rfl) (by rfl) (by rfl) (by rfl) (by rfl)

/-- C10: a file with a valid header but no record lines at all after
the skip offset leaves every block slot unfilled, and pd.concat over
only-None objects raises ValueError — read_traj reports an error
rather than returning an empty RunTable. -/
theorem c10_empty_body_error
    (fname : String) (lines : List String) (md : Metadata) (endc : Nat)
    (bt freq : String) (y mo d hh npart fmin : Nat) (codes : List Nat) (names : List String)
    (hpm : process_metadata lines = Except.ok (md, endc))
    (hfq : freqOfName fname = some freq)
    (hbt : md.trajectory_base_time = some bt)
    (hstrp : strptime10 bt = some (y, mo, d, hh))
    (htot : md.total_trajectories = some (NumVal.one npart))
    (hat : md.attribute_types = some (NumVal.many codes))
    (hnm : mapOpt ATTR codes = some names)
    (hpf : parseFreq freq = some fmin)
    (hempty : lines.drop (endc + 1 + 1) = []) :
    read_traj fname lines = Except.error PyErr.valueError := by
  simp [read_traj, hpm, hfq, hbt, hstrp, htot, hat, hnm, hpf, hempty, readBlocksGo_nil,
    combineChunks_none]

/-- C10 witness: a header-only file (the column header row is the
last line) makes read_traj raise the concat ValueError. -/
theorem c10_witness :
    read_traj fn22 (mkHdr "2019092200" 1 " 1 3") = Except.error PyErr.valueError := by
  exact c10_empty_body_error fn22 (mkHdr "2019092200" 1 " 1 3")
    (mdOfHdr "2019092200" 1 [ 1, 3 ]) 5 "2019092200" "1min" 2019 9 22 0 1 1 [ 1, 3 ]
    [ "temperature (K)", "potential vorticity (PVU)" ]
    (by rfl) (by rfl) (by rfl) (by rfl) (by rfl) (by rfl) (by rfl) (by rfl) (by rfl)

/-- C8: reading the same file twice produces identical results: the
embedded read_traj threads no mutable state whatever (the only global
it consults is the immutable ATTR table), so parsing is a function of
the file path and contents alone. -/
theorem c8_idempotent (fname : String) (lines : List String) :
    (readTwice fname lines).1 = (readTwice fname lines).2 := rfl

/-- C6: for an existing directory and valid ISO date strings,
read_data returns one (RunTable, RunMetadata) entry per run file
matching a day's rtraj-to-YYYYMMDD00 glob pattern, for each calendar
day of the inclusive range in ascending order (matchingEntries),
yielding zero entries, without error, for days with no matching
file. -/
theorem c6_date_range (cwd input_dir : String) (entries : DirListing)
    (startS endS : String) (sd ed : Nat × Nat × Nat)
    (hs : fromIso startS = some sd)
    (he : fromIso endS = some ed)
    (hok : ∀ e ∈ matchingEntries entries sd (some ed), isOkB (read_traj e.1 e.2) = true) :
    (read_data cwd true input_dir entries startS (some endS)).1 =
      mapE (fun e => read_traj e.1 e.2) (matchingEntries entries sd (some ed)) ∧
    lengthOfOk (mapE (fun e => read_traj e.1 e.2) (matchingEntries entries sd (some ed))) =
      some (matchingEntries entries sd (some ed)).length := by
  obtain ⟨out, ho, hlen⟩ := mapE_ok_of_all _ _ hok
  have hme : matchingEntries entries sd (some ed) =
      ((daterange sd (some ed)).map fun dd =>
        entries.filter fun e => matchesPattern dd e.1).flatten := rfl
  constructor
  · simp only [read_data, hs, he, read_data_body, Bool.not_true, Bool.false_eq_true, if_false]
    rw [← hme, ho]
  · rw [ho]
    simp only [lengthOfOk, hlen]

/-- C6 witness: the 2019-09-22 to 2019-09-24 range over a directory
with files for the 22nd and 24th only gives a two-element dataset in
day order, the missing 23rd contributing nothing and no error. -/
theorem c6_witness :
    (read_data "/home/user" true "/data" entries6 "2019-09-22" (some "2019-09-24")).1 =
      mapE (fun e => read_traj e.1 e.2)
        (matchingEntries entries6 (2019, 9, 22) (some (2019, 9, 24))) ∧
    lengthOfOk (mapE (fun e => read_traj e.1 e.2)
        (matchingEntries entries6 (2019, 9, 22) (some (2019, 9, 24)))) = some 2 := by
  have h := c6_date_range "/home/user" "/data" entries6 "2019-09-22" "2019-09-24"
    (2019, 9, 22) (2019, 9, 24) (by rfl) (by rfl) (by decide)
  refine ⟨h.1, ?_⟩
  rw [h.2]
  decide

/-- C7: read_data leaves the caller-observed working directory
unchanged on return, on normal completion and on every error path:
both chdir calls happen strictly between the argument validation and
the per-file reads, and nothing in between can fail. -/
theorem c7_cwd_restored (cwd : String) (dirOk : Bool) (input_dir : String)
    (entries : DirListing) (start_date : String) (end_date : Option String) :
    (read_data cwd dirOk input_dir entries start_date end_date).2 = cwd := by
  cases dirOk with
  | false => rfl
  | true =>
    simp only [read_data, Bool.not_true, Bool.false_eq_true, if_false]
    split
    · rfl
    · split
      · split
        · rfl
        · apply read_data_body_cwd
      · apply read_data_body_cwd
